import Mathlib

/-!
# Verification of the ECB exchange-rates ETL core

Shallow embedding of `src/ecb_etl.py`: the archive-entry selector, the date
parser, the three format parsers (XML dialect, single-row tabular, multi-row
tabular), the historical-mean aggregator and the report renderer, together
with theorems settling the specification claims.

Conventions of the embedding:
* Python `dict[str, T]` values are association lists `List (String × T)`
  with insertion-order semantics (`alookup` / `dictInsert`).
* Python `float` values are modelled as exact rationals (`Rat`); `float(text)`
  is modelled by `pyFloat`, covering the finite decimal/exponent literals the
  feed carries.
* Raising `ValueError` is modelled by `Except EtlError`; the distinct
  `ValueError` messages of the source correspond to distinct `EtlError`
  constructors.
* Byte-level collaborators (HTTP fetch, zip extraction, UTF-8/BOM decoding,
  the stdlib `csv` tokenizer and `ElementTree` tokenizer) are external: the
  zip selector works on the archive's entry-name list, the tabular parsers on
  the list of decoded records, the XML parser on the decoded element tree.
-/

set_option maxRecDepth 100000

namespace EcbEtl

/-- ASCII whitespace as recognised by Python's `str.strip()` on the inputs
modelled here. -/
def isPySpace (c : Char) : Bool :=
  c == ' ' || c == '\t' || c == '\n' || c == '\r' || c == '\x0b' || c == '\x0c'

/-- Trim leading and trailing whitespace from a character list. -/
def trimBoth (l : List Char) : List Char :=
  ((l.dropWhile isPySpace).reverse.dropWhile isPySpace).reverse

/-- Python `str.strip()`. -/
def pyStrip (s : String) : String := String.mk (trimBoth s.data)

/-- Python `str.upper()` (ASCII range, which covers the feed's headers). -/
def pyUpper (s : String) : String := String.mk (s.data.map Char.toUpper)

/-- Python `str.lower()` (ASCII range). -/
def pyLower (s : String) : String := String.mk (s.data.map Char.toLower)

/-- Python `str.endswith`. -/
def strEndsWith (s suf : String) : Bool := suf.data.isSuffixOf s.data

/-- Calendar date (`datetime.date`). -/
structure Date where
  year : Nat
  month : Nat
  day : Nat
deriving DecidableEq, Repr

/-- Python `datetime.date` comparison (lexicographic on year, month, day). -/
def Date.le (a b : Date) : Prop :=
  a.year < b.year ∨
    (a.year = b.year ∧ (a.month < b.month ∨ (a.month = b.month ∧ a.day ≤ b.day)))

instance : DecidableRel Date.le := fun a b => by
  unfold Date.le; infer_instance

def isLeapYear (y : Nat) : Bool :=
  y % 4 == 0 && (y % 100 != 0 || y % 400 == 0)

def daysInMonth (y m : Nat) : Nat :=
  if m == 2 then (if isLeapYear y then 29 else 28)
  else if m == 4 || m == 6 || m == 9 || m == 11 then 30
  else 31

/-- The dates `datetime.date` accepts: year 1..9999, valid month and day. -/
def validDate (y m d : Nat) : Prop :=
  1 ≤ y ∧ y ≤ 9999 ∧ 1 ≤ m ∧ m ≤ 12 ∧ 1 ≤ d ∧ d ≤ daysInMonth y m

instance (y m d : Nat) : Decidable (validDate y m d) := by
  unfold validDate; infer_instance

def digitVal (c : Char) : Nat := c.toNat - 48

def allDigits (cs : List Char) : Bool := cs.all Char.isDigit

def digitsToNat (cs : List Char) : Nat :=
  cs.foldl (fun a c => a * 10 + digitVal c) 0

/-- `date.fromisoformat` on the "YYYY-MM-DD" calendar form. -/
def parseIso (s : String) : Option Date :=
  match s.data with
  | [y1, y2, y3, y4, '-', m1, m2, '-', d1, d2] =>
    if allDigits [y1, y2, y3, y4] && allDigits [m1, m2] && allDigits [d1, d2] then
      let y := digitsToNat [y1, y2, y3, y4]
      let m := digitsToNat [m1, m2]
      let d := digitsToNat [d1, d2]
      if validDate y m d then some ⟨y, m, d⟩ else none
    else none
  | _ => none

def monthNames : List String :=
  ["january", "february", "march", "april", "may", "june",
   "july", "august", "september", "october", "november", "december"]

def monthIdx : List String → Nat → String → Option Nat
  | [], _, _ => none
  | n :: rest, i, w => if n = w then some i else monthIdx rest (i + 1) w

/-- Month number of an English month name, case-insensitively (as
`strptime`'s `%B` matches). -/
def monthNumber (w : String) : Option Nat := monthIdx monthNames 1 (pyLower w)

/-- Split a character list at every space (the shape `str.split`-style
matching of the fixed-layout `"%d %B %Y"` format needs). -/
def splitOnSpace : List Char → List (List Char)
  | [] => [[]]
  | c :: rest =>
    match splitOnSpace rest with
    | [] => [[c]]
    | g :: gs => if c == ' ' then [] :: g :: gs else (c :: g) :: gs

/-- `datetime.strptime(value, "%d %B %Y").date()`: one-or-two-digit day,
full English month name, four-digit year, single spaces, full match. -/
def parseLong (s : String) : Option Date :=
  match splitOnSpace s.data with
  | [ds, ms, ys] =>
    if allDigits ds && (ds.length == 1 || ds.length == 2)
        && allDigits ys && ys.length == 4 then
      match monthNumber (String.mk ms) with
      | some m =>
        let d := digitsToNat ds
        let y := digitsToNat ys
        if validDate y m d then some ⟨y, m, d⟩ else none
      | none => none
    else none
  | _ => none

/-- `parse_ecb_date`: strip, try ISO form, then the long form; `none` models
the propagated `ValueError` (the spec's `FormatError`). -/
def parse_ecb_date (value : String) : Option Date :=
  match parseIso (pyStrip value) with
  | some d => some d
  | none => parseLong (pyStrip value)

/-- Fractional value of a digit run read after a decimal point. -/
def fracVal (cs : List Char) : Rat :=
  (digitsToNat cs : Rat) / ((10 : Rat) ^ cs.length)

/-- Python `float(text)` on finite decimal literals (optional sign, digits
with optional fraction, optional exponent, surrounding whitespace),
returning `none` where `float` raises `ValueError`. -/
def pyFloat (s : String) : Option Rat :=
  let cs := trimBoth s.data
  let sgn : Rat := match cs with | '-' :: _ => -1 | _ => 1
  let cs1 : List Char := match cs with
    | '-' :: r => r
    | '+' :: r => r
    | _ => cs
  let ip := cs1.takeWhile Char.isDigit
  let rest1 := cs1.dropWhile Char.isDigit
  let fp : List Char := match rest1 with
    | '.' :: r => r.takeWhile Char.isDigit
    | _ => []
  let rest2 : List Char := match rest1 with
    | '.' :: r => r.dropWhile Char.isDigit
    | _ => rest1
  if ip.isEmpty && fp.isEmpty then none
  else
    let mant : Rat := (digitsToNat ip : Rat) + fracVal fp
    match rest2 with
    | [] => some (sgn * mant)
    | e :: r =>
      if e == 'e' || e == 'E' then
        let eneg : Bool := match r with | '-' :: _ => true | _ => false
        let r1 : List Char := match r with
          | '-' :: rr => rr
          | '+' :: rr => rr
          | _ => r
        if r1.isEmpty || !allDigits r1 then none
        else
          let ex := digitsToNat r1
          some (if eneg then sgn * mant / ((10 : Rat) ^ ex)
                else sgn * mant * ((10 : Rat) ^ ex))
      else none

/-- The distinct `ValueError`s raised by the ETL core, one constructor per
`raise` site (plus `dateFormat` for errors propagated out of
`parse_ecb_date`). -/
inductive EtlError where
  | dateFormat
  | emptyArchive
  | unsupportedArchive (entries : List String)
  | noRows
  | missingDateColumn
  | noDailyData
  | unsupportedDailyFormat (filename : String)
deriving DecidableEq, Repr

/-- The fixed preference list of `read_single_file_from_zip`. -/
def preferred : List String :=
  ["eurofxref-daily.xml", "eurofxref-hist.xml", "eurofxref.csv", "eurofxref-hist.csv"]

/-- `n.lower().endswith((".xml", ".csv"))`. -/
def isDataName (n : String) : Bool :=
  strEndsWith (pyLower n) ".xml" || strEndsWith (pyLower n) ".csv"

/-- Entry-name selection of `read_single_file_from_zip` (reading the chosen
entry's bytes is the zip collaborator). -/
def read_single_file_from_zip (names : List String) : Except EtlError String :=
  if names.isEmpty then .error .emptyArchive
  else
    match preferred.find? (fun p => names.contains p) with
    | some p => .ok p
    | none =>
      match names.filter isDataName with
      | [] => .error (.unsupportedArchive names)
      | n :: _ => .ok n

/-- Modelled from the spec's words (section 4.2 selection policy), for the
refinement claim C3: preference names checked in the stated fixed order,
then the first entry in listing order with a `.xml`/`.csv` name. -/
def selectEntrySpec (names : List String) : Except EtlError String :=
  if names.isEmpty then .error .emptyArchive
  else if names.contains "eurofxref-daily.xml" then .ok "eurofxref-daily.xml"
  else if names.contains "eurofxref-hist.xml" then .ok "eurofxref-hist.xml"
  else if names.contains "eurofxref.csv" then .ok "eurofxref.csv"
  else if names.contains "eurofxref-hist.csv" then .ok "eurofxref-hist.csv"
  else
    match names.find? isDataName with
    | some n => .ok n
    | none => .error (.unsupportedArchive names)

instance {ε α : Type} [DecidableEq ε] [DecidableEq α] : DecidableEq (Except ε α) :=
  fun a b =>
    match a, b with
    | .ok x, .ok y =>
      match decEq x y with
      | isTrue h => isTrue (by rw [h])
      | isFalse h => isFalse (by intro hc; cases hc; exact h rfl)
    | .ok _, .error _ => isFalse (by intro hc; cases hc)
    | .error _, .ok _ => isFalse (by intro hc; cases hc)
    | .error x, .error y =>
      match decEq x y with
      | isTrue h => isTrue (by rw [h])
      | isFalse h => isFalse (by intro hc; cases hc; exact h rfl)

/-- Association-list lookup with Python string-equality semantics:
the model of `dict.get` / `dict.__getitem__` on `dict[str, β]`. -/
def alookup {β : Type} (k : String) : List (String × β) → Option β
  | [] => none
  | p :: rest => if p.1 = k then some p.2 else alookup k rest

/-- `d[k] = v` on a Python dict: overwrite in place if the key exists
(keeping its position), else append. -/
def dictInsert {β : Type} (d : List (String × β)) (k : String) (v : β) :
    List (String × β) :=
  if (alookup k d).isSome then d.map (fun p => if p.1 = k then (k, v) else p)
  else d ++ [(k, v)]

/-- `RatesSnapshot` dataclass. -/
structure RatesSnapshot where
  as_of : Date
  rates : List (String × Rat)
deriving DecidableEq, Repr

/-- `s.as_of <= t.as_of`: the key order of `snapshots.sort(key=...)`. -/
def snapLe (a b : RatesSnapshot) : Prop := Date.le a.as_of b.as_of

instance : DecidableRel snapLe := fun a b => by
  unfold snapLe; infer_instance

instance : IsTotal RatesSnapshot snapLe :=
  ⟨by intro a b; unfold snapLe Date.le; omega⟩

instance : IsTrans RatesSnapshot snapLe :=
  ⟨by intro a b c; unfold snapLe Date.le; omega⟩

instance : IsRefl RatesSnapshot snapLe :=
  ⟨by intro a; unfold snapLe Date.le; omega⟩

/-- `snapshots.sort(key=lambda s: s.as_of)` (a stable ascending sort). -/
def sortSnaps (l : List RatesSnapshot) : List RatesSnapshot :=
  l.insertionSort snapLe

mutual
/-- An `xml.etree.ElementTree` element: attribute dict plus child list
(text content is irrelevant to the ETL and omitted). -/
inductive XmlElem where
  | mk (attrs : List (String × String)) (children : XmlList)
/-- Child list of an element (a separate inductive so that the tree walk
below is structurally recursive). -/
inductive XmlList where
  | nil
  | cons (head : XmlElem) (tail : XmlList)
end

def XmlElem.attrs : XmlElem → List (String × String)
  | .mk a _ => a

def XmlElem.children : XmlElem → XmlList
  | .mk _ cs => cs

/-- All elements of the list together with their descendants, in document
(preorder) order: the traversal underlying `findall(".//*...")`. -/
def descList : XmlList → List XmlElem
  | .nil => []
  | .cons (.mk a cs) rest => .mk a cs :: (descList cs ++ descList rest)

/-- Plain list of the direct children of an element. -/
def childList (e : XmlElem) : List XmlElem := descListTop e.children
where
  descListTop : XmlList → List XmlElem
    | .nil => []
    | .cons c rest => c :: descListTop rest

def hasTime (e : XmlElem) : Bool := (alookup "time" e.attrs).isSome

/-- `root.findall(".//*[@time]")`: every descendant of the root carrying a
`time` attribute, in document order. -/
def timeNodes (root : XmlElem) : List XmlElem :=
  (descList root.children).filter hasTime

/-- `time_node.findall("./*[@currency][@rate]")`. -/
def rateItems (e : XmlElem) : List XmlElem :=
  (childList e).filter
    (fun c => (alookup "currency" c.attrs).isSome && (alookup "rate" c.attrs).isSome)

/-- One iteration of the per-rate-node loop: the `currency` attribute is the
key verbatim, the `rate` attribute is float-parsed (skipped when
unparsable), assignment overwrites earlier duplicates. -/
def xmlRateStep (rs : List (String × Rat)) (c : XmlElem) : List (String × Rat) :=
  match alookup "currency" c.attrs, alookup "rate" c.attrs with
  | some ccy, some rstr =>
    match pyFloat rstr with
    | some v => dictInsert rs ccy v
    | none => rs
  | _, _ => rs

/-- The rates dict built for one time node. -/
def snapRates (e : XmlElem) : List (String × Rat) :=
  (rateItems e).foldl xmlRateStep []

/-- The per-time-node loop of `_parse_ecb_xml`: a node without a `time`
attribute is skipped (`continue`), a node whose `time` text fails
`parse_ecb_date` raises, i.e. aborts the whole parse. -/
def xmlGo : List XmlElem → Except EtlError (List RatesSnapshot)
  | [] => .ok []
  | node :: rest =>
    match alookup "time" node.attrs with
    | none => xmlGo rest
    | some t =>
      match parse_ecb_date t with
      | none => .error .dateFormat
      | some d => (xmlGo rest).map (fun ss => ⟨d, snapRates node⟩ :: ss)

/-- `_parse_ecb_xml` on the decoded element tree. -/
def parse_ecb_xml (root : XmlElem) : Except EtlError (List RatesSnapshot) :=
  (xmlGo (timeNodes root)).map sortSnaps

/-- A `csv.DictReader` row: header-name keyed cells, `none` modelling the
`None` fill of rows shorter than the header. -/
abbrev Row := List (String × Option String)

/-- The dict `csv.DictReader` builds for one record: header names zipped
with the record's fields, missing trailing fields becoming `None`,
duplicate header names overwriting in place. -/
def mkRow (header record : List String) : Row :=
  header.enum.foldl (fun d p => dictInsert d p.2 (record.get? p.1)) []

/-- Python `row.get(k)` (defaulting to `None` for a missing key). -/
def pyGet (row : Row) (k : String) : Option String := (alookup k row).join

/-- Python truthiness of a `str | None` value. -/
def pyTruthyStr : Option String → Bool
  | some s => !(s == "")
  | none => false

/-- `row.get("Date") or row.get("DATE")`. -/
def rowDateStr (row : Row) : Option String :=
  let a := pyGet row "Date"
  if pyTruthyStr a then a else pyGet row "DATE"

/-- One iteration of the shared per-cell rates loop of both tabular parsers:
strip+uppercase the column name, skip the date column, `None` cells, blank
cells and unparsable numbers; later duplicates overwrite. -/
def rateStep (rs : List (String × Rat)) (p : String × Option String) :
    List (String × Rat) :=
  if pyUpper (pyStrip p.1) = "DATE" then rs
  else
    match p.2 with
    | none => rs
    | some v =>
      if pyStrip v = "" then rs
      else
        match pyFloat v with
        | some x => dictInsert rs (pyUpper (pyStrip p.1)) x
        | none => rs

/-- The rates dict built from one tabular row. -/
def ratesFromRow (row : Row) : List (String × Rat) :=
  row.foldl rateStep []

/-- `_parse_ecb_daily_csv` on the decoded records (header first; blank
records are skipped by `DictReader`). Only the first data row is used. -/
def parse_ecb_daily_csv (records : List (List String)) :
    Except EtlError RatesSnapshot :=
  match records with
  | [] => .error .noRows
  | header :: dataRecords =>
    match (dataRecords.filter (fun r => !r.isEmpty)).map (mkRow header) with
    | [] => .error .noRows
    | row :: _ =>
      match rowDateStr row with
      | none => .error .missingDateColumn
      | some ds =>
        if ds = "" then .error .missingDateColumn
        else
          match parse_ecb_date ds with
          | none => .error .dateFormat
          | some d => .ok ⟨d, ratesFromRow row⟩

/-- The per-row loop of `_parse_ecb_hist_csv`: rows with a missing or empty
date value are skipped (`continue`); a present, non-empty date that fails
`parse_ecb_date` raises, i.e. aborts the whole parse. -/
def histRows : List Row → Except EtlError (List RatesSnapshot)
  | [] => .ok []
  | row :: rest =>
    match rowDateStr row with
    | none => histRows rest
    | some ds =>
      if ds = "" then histRows rest
      else
        match parse_ecb_date ds with
        | none => .error .dateFormat
        | some d => (histRows rest).map (fun ss => ⟨d, ratesFromRow row⟩ :: ss)

/-- `_parse_ecb_hist_csv` on the decoded records. -/
def parse_ecb_hist_csv (records : List (List String)) :
    Except EtlError (List RatesSnapshot) :=
  match records with
  | [] => .ok []
  | header :: dataRecords =>
    (histRows ((dataRecords.filter (fun r => !r.isEmpty)).map (mkRow header))).map
      sortSnaps

/-- `load_daily_snapshot` after the fetch: dispatch on the chosen entry's
name; XML gives the last (chronologically latest) snapshot of the sorted
parse, CSV the single-row parser's result. The fetched payload is given
both as decoded tree and as decoded records; only the branch matching the
name inspects it. -/
def load_daily_snapshot (filename : String) (xmlDoc : XmlElem)
    (records : List (List String)) : Except EtlError RatesSnapshot :=
  if strEndsWith (pyLower filename) ".xml" then
    match parse_ecb_xml xmlDoc with
    | .error e => .error e
    | .ok ss =>
      match ss.getLast? with
      | none => .error .noDailyData
      | some s => .ok s
  else if strEndsWith (pyLower filename) ".csv" then
    parse_ecb_daily_csv records
  else .error (.unsupportedDailyFormat filename)

/-- First-occurrence key order of `{ccy: [] for ccy in currencies}`. -/
def dedupFirstAux : List String → List String → List String
  | [], _ => []
  | c :: rest, seen =>
    if seen.contains c then dedupFirstAux rest seen
    else c :: dedupFirstAux rest (seen ++ [c])

def dedupFirst (l : List String) : List String := dedupFirstAux l []

/-- One pass of the bucket-filling loop: append the snapshot's value to the
bucket of every requested currency it carries. -/
def updateBuckets (snap : RatesSnapshot) (buckets : List (String × List Rat)) :
    List (String × List Rat) :=
  buckets.map fun p =>
    match alookup p.1 snap.rates with
    | some v => (p.1, p.2 ++ [v])
    | none => p

/-- `statistics.fmean`, idealised over exact rationals. -/
def ratMean (vs : List Rat) : Rat := vs.sum / (vs.length : Rat)

/-- `compute_historical_means`. -/
def compute_historical_means (historical : List RatesSnapshot)
    (currencies : List String) : List (String × Rat) :=
  let buckets := historical.foldl (fun b snap => updateBuckets snap b)
    ((dedupFirst currencies).map (fun c => (c, ([] : List Rat))))
  buckets.filterMap fun p =>
    if p.2 = [] then none else some (p.1, ratMean p.2)

def digitChar (n : Nat) : Char := Char.ofNat (48 + n)

/-- Decimal digits of `n`, most significant first (fuel-structured so the
kernel can evaluate it; the fuel `n + 1` always suffices). -/
def natCharsCore : Nat → Nat → List Char → List Char
  | 0, _, acc => acc
  | fuel + 1, n, acc =>
    let acc' := digitChar (n % 10) :: acc
    if n < 10 then acc' else natCharsCore fuel (n / 10) acc'

def natChars (n : Nat) : List Char := natCharsCore (n + 1) n []

def natStr (n : Nat) : String := String.mk (natChars n)

/-- Zero-pad a decimal rendering to width `w` (`%04d`-style). -/
def padNat (w n : Nat) : String :=
  String.mk (List.replicate (w - (natChars n).length) '0' ++ natChars n)

/-- `date.isoformat()`. -/
def dateIso (d : Date) : String :=
  padNat 4 d.year ++ "-" ++ padNat 2 d.month ++ "-" ++ padNat 2 d.day

/-- Round to the nearest integer, ties to even: the rounding of `%.6f`. -/
def roundHalfEven (q : Rat) : Int :=
  let f : Int := q.floor
  let r : Rat := q - (f : Rat)
  if r < 1 / 2 then f
  else if 1 / 2 < r then f + 1
  else if f % 2 = 0 then f else f + 1

/-- Exactly six decimal digits of `n < 10^6`, zero-padded. -/
def sixDigits (n : Nat) : String :=
  String.mk ([5, 4, 3, 2, 1, 0].map (fun i => digitChar (n / 10 ^ i % 10)))

/-- Python `f"{q:.6f}"` over the rational model. -/
def formatSix (q : Rat) : String :=
  let m : Nat := (roundHalfEven (|q| * 1000000)).toNat
  (if q < 0 then "-" else "") ++ natStr (m / 1000000) ++ "." ++ sixDigits (m % 1000000)

/-- A table cell: the formatted value, or `"N/A"` when absent. -/
def cellStr : Option Rat → String
  | some v => formatSix v
  | none => "N/A"

/-- One table row of `render_markdown_table`. -/
def renderRow (daily : RatesSnapshot) (means : List (String × Rat))
    (ccy : String) : String :=
  "| " ++ ccy ++ " | " ++ cellStr (alookup ccy daily.rates) ++ " | " ++
    cellStr (alookup ccy means) ++ " |"

/-- `render_markdown_table`. -/
def render_markdown_table (daily : RatesSnapshot) (means : List (String × Rat))
    (currencies : List String) : String :=
  String.intercalate "\n"
    (["# ECB Exchange Rates (EUR base)\n",
      "**Daily rates date:** " ++ dateIso daily.as_of ++ "\n",
      "| Currency Code | Rate | Mean Historical Rate |",
      "|---|---:|---:|"]
      ++ currencies.map (renderRow daily means) ++ [""])

/-! ## Concrete example inputs used by counterexamples and witnesses -/

/-- An XML tree whose second time-carrying element has an unparsable `time`
attribute while the first is fully well-formed. -/
def badTimeXml : XmlElem :=
  .mk []
    (.cons
      (.mk [("time", "2024-01-01")]
        (.cons (.mk [("currency", "USD"), ("rate", "1.0")] .nil) .nil))
      (.cons (.mk [("time", "not-a-date")] .nil) .nil))

/-- A structurally valid XML tree carrying a lower-case currency code with a
negative rate (plus an unparsable rate that gets skipped), listed with its
later date first. -/
def mixedXml : XmlElem :=
  .mk []
    (.cons
      (.mk [("time", "2024-01-02")]
        (.cons (.mk [("currency", "usd"), ("rate", "-1.5")] .nil)
          (.cons (.mk [("currency", "GBP"), ("rate", "bad")] .nil) .nil)))
      (.cons (.mk [("time", "2024-01-01")] .nil) .nil))

/-- The historical series of the C6 concrete example. -/
def exampleHist : List RatesSnapshot :=
  [⟨⟨2024, 1, 1⟩, [("USD", 1)]⟩, ⟨⟨2024, 1, 2⟩, [("USD", 3)]⟩,
   ⟨⟨2024, 1, 3⟩, [("JPY", 5)]⟩]

/-! ## Helper lemmas -/

theorem dropWhile_dropWhile {α : Type} (p : α → Bool) (l : List α) :
    (l.dropWhile p).dropWhile p = l.dropWhile p := by
  induction l with
  | nil => rfl
  | cons a t ih => cases h : p a <;> simp [List.dropWhile_cons, h, ih]

theorem length_dropWhile_le {α : Type} (p : α → Bool) (l : List α) :
    (l.dropWhile p).length ≤ l.length := by
  induction l with
  | nil => simp
  | cons a t ih =>
    cases h : p a
    · simp only [List.dropWhile_cons, h, Bool.false_eq_true, if_false]
      simp
    · simp only [List.dropWhile_cons, h, if_true]
      simp
      omega

theorem dropWhile_eq_self_append {α : Type} (p : α → Bool) (x y : List α)
    (h : (x ++ y).dropWhile p = x ++ y) : x.dropWhile p = x := by
  cases x with
  | nil => rfl
  | cons a t =>
    have hpa : p a = false := by
      by_contra hb
      have hpa : p a = true := by
        cases hh : p a
        · exact absurd hh hb
        · rfl
      rw [List.cons_append, List.dropWhile_cons, if_pos hpa] at h
      have hle := length_dropWhile_le p (t ++ y)
      rw [h] at hle
      simp at hle
    simp [List.dropWhile_cons, hpa]

theorem trimBoth_trimBoth (l : List Char) : trimBoth (trimBoth l) = trimBoth l := by
  unfold trimBoth
  have hAdrop : (l.dropWhile isPySpace).dropWhile isPySpace = l.dropWhile isPySpace :=
    dropWhile_dropWhile _ l
  generalize hA : l.dropWhile isPySpace = A at hAdrop
  have hsplit : A.reverse =
      A.reverse.takeWhile isPySpace ++ A.reverse.dropWhile isPySpace :=
    (List.takeWhile_append_dropWhile _ _).symm
  generalize hB : A.reverse.dropWhile isPySpace = B at hsplit
  have hA2 : A = B.reverse ++ (A.reverse.takeWhile isPySpace).reverse := by
    calc A = A.reverse.reverse := (List.reverse_reverse A).symm
    _ = (A.reverse.takeWhile isPySpace ++ B).reverse := by rw [← hsplit]
    _ = B.reverse ++ (A.reverse.takeWhile isPySpace).reverse := by
        rw [List.reverse_append]
  have h1 : B.reverse.dropWhile isPySpace = B.reverse := by
    apply dropWhile_eq_self_append isPySpace B.reverse
      (A.reverse.takeWhile isPySpace).reverse
    rw [← hA2]
    exact hAdrop
  rw [h1, List.reverse_reverse, ← hB, dropWhile_dropWhile]

theorem pyStrip_pyStrip (s : String) : pyStrip (pyStrip s) = pyStrip s := by
  show String.mk (trimBoth (trimBoth s.data)) = String.mk (trimBoth s.data)
  rw [trimBoth_trimBoth]

theorem find?_eq_head_filter {α : Type} (p : α → Bool) (l : List α) :
    l.find? p = (l.filter p).head? := by
  induction l with
  | nil => rfl
  | cons a t ih =>
    cases h : p a
    · rw [List.find?_cons_of_neg _ (by simp [h]),
        List.filter_cons_of_neg (by simp [h]), ih]
    · rw [List.find?_cons_of_pos _ h, List.filter_cons_of_pos h, List.head?_cons]

/-! ## C3: archive entry selection policy -/

theorem bool_ne_true {b : Bool} (h : b = false) : ¬b = true := by
  simp [h]

theorem find?_preferred (names : List String) :
    preferred.find? (fun p => names.contains p) =
      (if names.contains "eurofxref-daily.xml" then some "eurofxref-daily.xml"
       else if names.contains "eurofxref-hist.xml" then some "eurofxref-hist.xml"
       else if names.contains "eurofxref.csv" then some "eurofxref.csv"
       else if names.contains "eurofxref-hist.csv" then some "eurofxref-hist.csv"
       else none) := by
  unfold preferred
  cases h1 : names.contains "eurofxref-daily.xml"
  case true =>
    rw [List.find?_cons_of_pos _ h1]
    rfl
  case false =>
    rw [List.find?_cons_of_neg _ (bool_ne_true h1)]
    cases h2 : names.contains "eurofxref-hist.xml"
    case true =>
      rw [List.find?_cons_of_pos _ h2]
      rfl
    case false =>
      rw [List.find?_cons_of_neg _ (bool_ne_true h2)]
      cases h3 : names.contains "eurofxref.csv"
      case true =>
        rw [List.find?_cons_of_pos _ h3]
        rfl
      case false =>
        rw [List.find?_cons_of_neg _ (bool_ne_true h3)]
        cases h4 : names.contains "eurofxref-hist.csv"
        case true =>
          rw [List.find?_cons_of_pos _ h4]
          rfl
        case false =>
          rw [List.find?_cons_of_neg _ (bool_ne_true h4)]
          rfl

/-- C3: for every archive entry list, the selector of
`read_single_file_from_zip` implements exactly the spec's policy: the fixed
preference list is checked in its fixed order (a present preferred name wins
regardless of listing order), else the first entry in listing order whose
name ends in `.xml`/`.csv` case-insensitively is chosen. -/
theorem claim_C3_selection_policy (names : List String) :
    read_single_file_from_zip names = selectEntrySpec names := by
  unfold read_single_file_from_zip selectEntrySpec
  cases h0 : names.isEmpty
  · simp only [h0, Bool.false_eq_true, if_false]
    rw [find?_preferred, find?_eq_head_filter isDataName names]
    cases h1 : names.contains "eurofxref-daily.xml"
    case true => rfl
    case false =>
      cases h2 : names.contains "eurofxref-hist.xml"
      case true => rfl
      case false =>
        cases h3 : names.contains "eurofxref.csv"
        case true => rfl
        case false =>
          cases h4 : names.contains "eurofxref-hist.csv"
          case true => rfl
          case false =>
            cases hl : names.filter isDataName <;> rfl
  · simp [h0]

/-! ## C4: empty and unsupported archives -/

/-- C4: an archive with zero entries fails with the empty-archive error; an
archive with entries but no preferred name and no `.xml`/`.csv`-named entry
fails with the unsupported-archive error carrying the full entry list. -/
theorem claim_C4_archive_errors :
    (∀ names : List String, names = [] →
        read_single_file_from_zip names = .error .emptyArchive) ∧
    (∀ names : List String, names ≠ [] →
        (∀ p ∈ preferred, names.contains p = false) →
        (∀ n ∈ names, isDataName n = false) →
        read_single_file_from_zip names = .error (.unsupportedArchive names)) := by
  constructor
  · intro names h
    subst h
    rfl
  · intro names hne hpref hdata
    unfold read_single_file_from_zip
    have h0 : names.isEmpty = false := by
      cases names
      · exact absurd rfl hne
      · rfl
    have h1 : preferred.find? (fun p => names.contains p) = none := by
      rw [List.find?_eq_none]
      intro p hp
      rw [hpref p hp]
      simp
    have h2 : names.filter isDataName = [] := by
      rw [List.filter_eq_nil_iff]
      intro n hn
      rw [hdata n hn]
      simp
    simp only [h0, Bool.false_eq_true, if_false]
    rw [h1, h2]

/-- Closed instances of both parts of C4. -/
theorem claim_C4_witness :
    read_single_file_from_zip [] = .error .emptyArchive ∧
    read_single_file_from_zip ["readme.txt"] =
      .error (.unsupportedArchive ["readme.txt"]) :=
  ⟨claim_C4_archive_errors.1 [] rfl,
   claim_C4_archive_errors.2 ["readme.txt"] (by simp)
     (by with_unfolding_all decide) (by with_unfolding_all decide)⟩

/-! ## C5: date parser -/

/-- C5: `parse_ecb_date` trims surrounding whitespace first, tries the
ISO-8601 "YYYY-MM-DD" form, falls back to the "DD MonthName YYYY" long form,
and fails (the `FormatError`, modelled as `none`) when neither matches; on
the claim's concrete inputs it behaves as stated. -/
theorem claim_C5_parse_date :
    parse_ecb_date "2024-03-15" = some ⟨2024, 3, 15⟩ ∧
    parse_ecb_date "15 March 2024" = some ⟨2024, 3, 15⟩ ∧
    parse_ecb_date "not-a-date" = none ∧
    (∀ s, parse_ecb_date s = parse_ecb_date (pyStrip s)) ∧
    (∀ s d, parseIso (pyStrip s) = some d → parse_ecb_date s = some d) ∧
    (∀ s, parseIso (pyStrip s) = none → parse_ecb_date s = parseLong (pyStrip s)) := by
  refine ⟨by with_unfolding_all decide, by with_unfolding_all decide,
    by with_unfolding_all decide, ?_, ?_, ?_⟩
  · intro s
    unfold parse_ecb_date
    rw [pyStrip_pyStrip]
  · intro s d h
    unfold parse_ecb_date
    rw [h]
  · intro s h
    unfold parse_ecb_date
    rw [h]

/-- Closed instances of the conditional parts of C5: trimming happens before
the ISO attempt, and the long form is only reached after the ISO form fails. -/
theorem claim_C5_witness :
    (parseIso (pyStrip " 2024-03-15 ") = some ⟨2024, 3, 15⟩ ∧
      parse_ecb_date " 2024-03-15 " = some ⟨2024, 3, 15⟩) ∧
    (parseIso (pyStrip "15 March 2024") = none ∧
      parse_ecb_date "15 March 2024" = parseLong (pyStrip "15 March 2024")) :=
  ⟨⟨by with_unfolding_all decide,
    claim_C5_parse_date.2.2.2.2.1 " 2024-03-15 " ⟨2024, 3, 15⟩
      (by with_unfolding_all decide)⟩,
   ⟨by with_unfolding_all decide,
    claim_C5_parse_date.2.2.2.2.2 "15 March 2024" (by with_unfolding_all decide)⟩⟩

/-! ## Provenance lemmas for the rates dictionaries -/

theorem alookup_cons {β : Type} (k : String) (p : String × β) (rest : List (String × β)) :
    alookup k (p :: rest) = if p.1 = k then some p.2 else alookup k rest := rfl

theorem dictInsert_mem {β : Type} (d : List (String × β)) (key : String) (val : β)
    (k : String) (v : β) (h : (k, v) ∈ dictInsert d key val) :
    (k = key ∧ v = val) ∨ (k, v) ∈ d := by
  unfold dictInsert at h
  by_cases hs : (alookup key d).isSome
  · rw [if_pos hs] at h
    obtain ⟨p, hp, heq⟩ := List.mem_map.mp h
    by_cases hpk : p.1 = key
    · rw [if_pos hpk] at heq
      cases heq
      exact .inl ⟨rfl, rfl⟩
    · rw [if_neg hpk] at heq
      exact .inr (heq ▸ hp)
  · rw [if_neg hs] at h
    rcases List.mem_append.mp h with h1 | h2
    · exact .inr h1
    · have h3 := List.mem_singleton.mp h2
      cases h3
      exact .inl ⟨rfl, rfl⟩

theorem alookup_eq_none {β : Type} (key : String) (d : List (String × β))
    (h : ∀ k v, (k, v) ∈ d → k ≠ key) : alookup key d = none := by
  induction d with
  | nil => rfl
  | cons p rest ih =>
    rw [alookup_cons, if_neg (h p.1 p.2 (List.mem_cons_self _ _))]
    exact ih fun k v hm => h k v (List.mem_cons_of_mem _ hm)

theorem rateStep_mem (rs : List (String × Rat)) (p : String × Option String)
    (k : String) (v : Rat) (h : (k, v) ∈ rateStep rs p) :
    (k, v) ∈ rs ∨ (k ≠ "DATE" ∧ k = pyUpper (pyStrip p.1)) := by
  unfold rateStep at h
  split at h
  · exact .inl h
  · next hdate =>
    split at h
    · exact .inl h
    · next val heq =>
      split at h
      · exact .inl h
      · next hblank =>
        split at h
        · next x hf =>
          rcases dictInsert_mem _ _ _ _ _ h with ⟨hk, _⟩ | hin
          · refine .inr ⟨?_, hk⟩
            rw [hk]
            exact hdate
          · exact .inl hin
        · exact .inl h

theorem foldl_rateStep_mem (cells : Row) :
    ∀ (acc : List (String × Rat)) (k : String) (v : Rat),
      (k, v) ∈ cells.foldl rateStep acc →
      (k, v) ∈ acc ∨ (k ≠ "DATE" ∧ ∃ raw, k = pyUpper (pyStrip raw)) := by
  induction cells with
  | nil =>
    intro acc k v h
    exact .inl h
  | cons p rest ih =>
    intro acc k v h
    rw [List.foldl_cons] at h
    rcases ih _ _ _ h with hin | hgood
    · rcases rateStep_mem _ _ _ _ hin with h1 | ⟨hne, hk⟩
      · exact .inl h1
      · exact .inr ⟨hne, p.1, hk⟩
    · exact .inr hgood

theorem ratesFromRow_mem (row : Row) (k : String) (v : Rat)
    (h : (k, v) ∈ ratesFromRow row) :
    k ≠ "DATE" ∧ ∃ raw, k = pyUpper (pyStrip raw) := by
  rcases foldl_rateStep_mem row [] k v h with hin | hg
  · exact absurd hin (List.not_mem_nil _)
  · exact hg

theorem xmlRateStep_mem (rs : List (String × Rat)) (c : XmlElem)
    (k : String) (v : Rat) (h : (k, v) ∈ xmlRateStep rs c) :
    (k, v) ∈ rs ∨ (alookup "currency" c.attrs = some k ∧
      ∃ rstr, alookup "rate" c.attrs = some rstr ∧ pyFloat rstr = some v) := by
  unfold xmlRateStep at h
  split at h
  · next ccy rstr hc hr =>
    split at h
    · next x hf =>
      rcases dictInsert_mem _ _ _ _ _ h with ⟨hk, hv⟩ | hin
      · exact .inr ⟨hk ▸ hc, rstr, hr, hv ▸ hf⟩
      · exact .inl hin
    · exact .inl h
  · exact .inl h

theorem foldl_xmlRateStep_mem (items : List XmlElem) :
    ∀ (acc : List (String × Rat)) (k : String) (v : Rat),
      (k, v) ∈ items.foldl xmlRateStep acc →
      (k, v) ∈ acc ∨ ∃ c ∈ items, alookup "currency" c.attrs = some k ∧
        ∃ rstr, alookup "rate" c.attrs = some rstr ∧ pyFloat rstr = some v := by
  induction items with
  | nil =>
    intro acc k v h
    exact .inl h
  | cons c rest ih =>
    intro acc k v h
    rw [List.foldl_cons] at h
    rcases ih _ _ _ h with hin | ⟨c', hc', hgood⟩
    · rcases xmlRateStep_mem _ _ _ _ hin with h1 | h2
      · exact .inl h1
      · exact .inr ⟨c, List.mem_cons_self _ _, h2⟩
    · exact .inr ⟨c', List.mem_cons_of_mem _ hc', hgood⟩

theorem snapRates_mem (e : XmlElem) (k : String) (v : Rat)
    (h : (k, v) ∈ snapRates e) :
    ∃ c ∈ rateItems e, alookup "currency" c.attrs = some k ∧
      ∃ rstr, alookup "rate" c.attrs = some rstr ∧ pyFloat rstr = some v := by
  rcases foldl_xmlRateStep_mem _ [] k v h with hin | hg
  · exact absurd hin (List.not_mem_nil _)
  · exact hg

/-! ## Inversion lemmas for the parsers -/

theorem histRows_ok_rates (rows : List Row) :
    ∀ (ss : List RatesSnapshot), histRows rows = .ok ss →
      ∀ s ∈ ss, ∃ row, s.rates = ratesFromRow row := by
  induction rows with
  | nil =>
    intro ss h s hs
    unfold histRows at h
    cases h
    exact absurd hs (List.not_mem_nil _)
  | cons row rest ih =>
    intro ss h s hs
    unfold histRows at h
    split at h
    · exact ih ss h s hs
    · next ds hds =>
      split at h
      · exact ih ss h s hs
      · split at h
        · cases h
        · next d hd =>
          cases hr : histRows rest with
          | error e =>
            rw [hr] at h
            cases h
          | ok tail =>
            rw [hr] at h
            cases h
            rcases List.mem_cons.mp hs with rfl | hm
            · exact ⟨row, rfl⟩
            · exact ih tail hr s hm

theorem xmlGo_ok_rates (l : List XmlElem) :
    ∀ (ss : List RatesSnapshot), xmlGo l = .ok ss →
      ∀ s ∈ ss, ∃ e ∈ l, s.rates = snapRates e := by
  induction l with
  | nil =>
    intro ss h s hs
    unfold xmlGo at h
    cases h
    exact absurd hs (List.not_mem_nil _)
  | cons node rest ih =>
    intro ss h s hs
    unfold xmlGo at h
    split at h
    · obtain ⟨e, he, hrates⟩ := ih ss h s hs
      exact ⟨e, List.mem_cons_of_mem _ he, hrates⟩
    · next t ht =>
      split at h
      · cases h
      · next d hd =>
        cases hr : xmlGo rest with
        | error e =>
          rw [hr] at h
          cases h
        | ok tail =>
          rw [hr] at h
          cases h
          rcases List.mem_cons.mp hs with rfl | hm
          · exact ⟨node, List.mem_cons_self _ _, rfl⟩
          · obtain ⟨e, he, hrates⟩ := ih tail hr s hm
            exact ⟨e, List.mem_cons_of_mem _ he, hrates⟩

theorem xmlGo_ok_length (l : List XmlElem) :
    ∀ (ss : List RatesSnapshot), (∀ e ∈ l, hasTime e = true) →
      xmlGo l = .ok ss → ss.length = l.length := by
  induction l with
  | nil =>
    intro ss _ h
    unfold xmlGo at h
    cases h
    rfl
  | cons node rest ih =>
    intro ss hT h
    unfold xmlGo at h
    split at h
    · next hnone =>
      have := hT node (List.mem_cons_self _ _)
      rw [hasTime, hnone] at this
      cases this
    · next t ht =>
      split at h
      · cases h
      · next d hd =>
        cases hr : xmlGo rest with
        | error e =>
          rw [hr] at h
          cases h
        | ok tail =>
          rw [hr] at h
          cases h
          have := ih tail (fun e he => hT e (List.mem_cons_of_mem _ he)) hr
          simp [this]

theorem sortSnaps_mem (l : List RatesSnapshot) (s : RatesSnapshot) :
    s ∈ sortSnaps l ↔ s ∈ l :=
  (List.perm_insertionSort snapLe l).mem_iff

theorem sortSnaps_length (l : List RatesSnapshot) :
    (sortSnaps l).length = l.length :=
  (List.perm_insertionSort snapLe l).length_eq

theorem parse_xml_ok_length (root : XmlElem) (ss : List RatesSnapshot)
    (h : parse_ecb_xml root = .ok ss) : ss.length = (timeNodes root).length := by
  unfold parse_ecb_xml at h
  cases hx : xmlGo (timeNodes root) with
  | error e =>
    rw [hx] at h
    cases h
  | ok ss' =>
    rw [hx] at h
    cases h
    rw [sortSnaps_length]
    exact xmlGo_ok_length _ _ (fun e he => (List.mem_filter.mp he).2) hx

theorem parse_xml_ok_rates (root : XmlElem) (ss : List RatesSnapshot)
    (h : parse_ecb_xml root = .ok ss) :
    ∀ s ∈ ss, ∃ e ∈ timeNodes root, s.rates = snapRates e := by
  unfold parse_ecb_xml at h
  cases hx : xmlGo (timeNodes root) with
  | error e =>
    rw [hx] at h
    cases h
  | ok ss' =>
    rw [hx] at h
    cases h
    intro s hs
    exact xmlGo_ok_rates _ _ hx s ((sortSnaps_mem _ _).mp hs)

theorem parse_hist_ok_rates (records : List (List String))
    (out : List RatesSnapshot) (h : parse_ecb_hist_csv records = .ok out) :
    ∀ s ∈ out, ∃ row, s.rates = ratesFromRow row := by
  unfold parse_ecb_hist_csv at h
  cases records with
  | nil =>
    cases h
    intro s hs
    exact absurd hs (List.not_mem_nil _)
  | cons header dr =>
    dsimp only at h
    cases hr : histRows ((dr.filter (fun r => !r.isEmpty)).map (mkRow header)) with
    | error e =>
      rw [hr] at h
      cases h
    | ok ss =>
      rw [hr] at h
      cases h
      intro s hs
      exact histRows_ok_rates _ _ hr s ((sortSnaps_mem _ _).mp hs)

theorem parse_daily_ok_rates (records : List (List String)) (snap : RatesSnapshot)
    (h : parse_ecb_daily_csv records = .ok snap) :
    ∃ row, snap.rates = ratesFromRow row := by
  unfold parse_ecb_daily_csv at h
  split at h
  · cases h
  · split at h
    · cases h
    · next row tail hrow =>
      split at h
      · cases h
      · next ds hds =>
        split at h
        · cases h
        · split at h
          · cases h
          · next d hd =>
            cases h
            exact ⟨row, rfl⟩

/-! ## C1: local recovery from malformed dates -/

/-- C1 counterexample: in both the XML dialect parser and the multi-row
tabular parser, a single present-but-unparsable date aborts the whole parse
with the date `FormatError` instead of skipping that entry/row — even though
each input also contains a perfectly well-formed entry. -/
theorem claim_C1_counterexample :
    parse_ecb_xml badTimeXml = .error .dateFormat ∧
    parse_ecb_hist_csv [["Date", "USD"], ["garbage", "1.0"], ["2024-01-02", "3.0"]] =
      .error .dateFormat :=
  ⟨by with_unfolding_all decide, by with_unfolding_all decide⟩

/-- C1 amended: only entries whose date value is *missing* (no `time`
attribute; no/empty date cell) are skipped with parsing continuing — every
element carrying a `time` attribute yields exactly one snapshot on success —
while a present, non-empty date text that fails `parse_ecb_date` aborts the
whole parse with the date `FormatError`. -/
theorem claim_C1_amended_skip_only_missing :
    (∀ row rows, (rowDateStr row = none ∨ rowDateStr row = some "") →
        histRows (row :: rows) = histRows rows) ∧
    (∀ row rows ds, rowDateStr row = some ds → ds ≠ "" → parse_ecb_date ds = none →
        histRows (row :: rows) = .error .dateFormat) ∧
    (∀ node rest t, alookup "time" node.attrs = some t → parse_ecb_date t = none →
        xmlGo (node :: rest) = .error .dateFormat) ∧
    (∀ root ss, parse_ecb_xml root = .ok ss → ss.length = (timeNodes root).length) := by
  refine ⟨?_, ?_, ?_, parse_xml_ok_length⟩
  · intro row rows h
    conv_lhs => unfold histRows
    rcases h with h | h
    · rw [h]
    · rw [h]
      rfl
  · intro row rows ds hds hne hparse
    conv_lhs => unfold histRows
    rw [hds]
    dsimp only
    rw [if_neg hne, hparse]
  · intro node rest t ht hparse
    conv_lhs => unfold xmlGo
    rw [ht]
    dsimp only
    rw [hparse]

/-- Closed instances of every conditional part of the amended C1. -/
theorem claim_C1_witness :
    (histRows [[("Date", some "")]] = histRows [] ∧
      histRows [[("DATE", some "")]] = histRows []) ∧
    histRows [[("Date", some "huh")], [("Date", some "2024-01-02")]] =
      .error .dateFormat ∧
    xmlGo [.mk [("time", "oops")] .nil] = .error .dateFormat ∧
    ([⟨⟨2024, 1, 1⟩, []⟩, ⟨⟨2024, 1, 2⟩, [("usd", -(3 / 2 : Rat))]⟩] :
        List RatesSnapshot).length = (timeNodes mixedXml).length :=
  ⟨⟨claim_C1_amended_skip_only_missing.1 _ [] (.inl (by with_unfolding_all decide)),
    claim_C1_amended_skip_only_missing.1 _ [] (.inr (by with_unfolding_all decide))⟩,
   claim_C1_amended_skip_only_missing.2.1 _ _ "huh" (by with_unfolding_all decide)
     (by with_unfolding_all decide) (by with_unfolding_all decide),
   claim_C1_amended_skip_only_missing.2.2.1 _ [] "oops" (by with_unfolding_all decide)
     (by with_unfolding_all decide),
   claim_C1_amended_skip_only_missing.2.2.2 mixedXml _ (by with_unfolding_all decide)⟩

/-! ## C2: snapshot rates invariants -/

/-- C2 counterexample: the XML dialect parser keeps the `currency` attribute
verbatim (here the lower-case key "usd") and accepts a negative rate, so the
claimed "non-empty uppercase alphabetic keys, finite non-negative values"
invariant fails on a structurally valid input. -/
theorem claim_C2_counterexample :
    parse_ecb_xml mixedXml =
      .ok [⟨⟨2024, 1, 1⟩, []⟩, ⟨⟨2024, 1, 2⟩, [("usd", -(3 / 2 : Rat))]⟩] ∧
    ¬("usd" = pyUpper "usd") ∧ (-(3 / 2 : Rat) < 0) :=
  ⟨by with_unfolding_all decide, by with_unfolding_all decide,
   by with_unfolding_all decide⟩

/-- C2 amended: the two tabular parsers produce keys that are exactly the
stripped-and-upper-cased column names and never the date column, while the
XML parser copies the `currency` attribute verbatim and stores any
successfully float-parsed `rate` value (negative ones included). -/
theorem claim_C2_amended_key_provenance :
    (∀ records snap, parse_ecb_daily_csv records = .ok snap →
        ∀ k v, (k, v) ∈ snap.rates →
          k ≠ "DATE" ∧ ∃ raw, k = pyUpper (pyStrip raw)) ∧
    (∀ records out, parse_ecb_hist_csv records = .ok out →
        ∀ s ∈ out, ∀ k v, (k, v) ∈ s.rates →
          k ≠ "DATE" ∧ ∃ raw, k = pyUpper (pyStrip raw)) ∧
    (∀ root ss, parse_ecb_xml root = .ok ss →
        ∀ s ∈ ss, ∀ k v, (k, v) ∈ s.rates →
          ∃ e ∈ timeNodes root, ∃ c ∈ rateItems e,
            alookup "currency" c.attrs = some k ∧
              ∃ rstr, alookup "rate" c.attrs = some rstr ∧ pyFloat rstr = some v) := by
  refine ⟨?_, ?_, ?_⟩
  · intro records snap h k v hm
    obtain ⟨row, hr⟩ := parse_daily_ok_rates records snap h
    exact ratesFromRow_mem row k v (hr ▸ hm)
  · intro records out h s hs k v hm
    obtain ⟨row, hr⟩ := parse_hist_ok_rates records out h s hs
    exact ratesFromRow_mem row k v (hr ▸ hm)
  · intro root ss h s hs k v hm
    obtain ⟨e, he, hr⟩ := parse_xml_ok_rates root ss h s hs
    obtain ⟨c, hc, hgood⟩ := snapRates_mem e k v (hr ▸ hm)
    exact ⟨e, he, c, hc, hgood⟩

/-- Closed instances of all three parts of the amended C2. -/
theorem claim_C2_witness :
    ("USD" ≠ "DATE" ∧ ∃ raw, "USD" = pyUpper (pyStrip raw)) ∧
    ("SEK" ≠ "DATE" ∧ ∃ raw, "SEK" = pyUpper (pyStrip raw)) ∧
    (∃ e ∈ timeNodes mixedXml, ∃ c ∈ rateItems e,
      alookup "currency" c.attrs = some "usd" ∧
        ∃ rstr, alookup "rate" c.attrs = some rstr ∧
          pyFloat rstr = some (-(3 / 2 : Rat))) :=
  ⟨claim_C2_amended_key_provenance.1 [["Date", "usd "], ["2024-01-02", "3.0"]]
      ⟨⟨2024, 1, 2⟩, [("USD", 3)]⟩ (by with_unfolding_all decide) "USD" 3
      (by with_unfolding_all decide),
   claim_C2_amended_key_provenance.2.1 [["Date", " sek"], ["2024-01-02", "9.5"]]
      [⟨⟨2024, 1, 2⟩, [("SEK", 19 / 2)]⟩] (by with_unfolding_all decide)
      ⟨⟨2024, 1, 2⟩, [("SEK", 19 / 2)]⟩ (by with_unfolding_all decide) "SEK" (19 / 2)
      (by with_unfolding_all decide),
   claim_C2_amended_key_provenance.2.2 mixedXml
      [⟨⟨2024, 1, 1⟩, []⟩, ⟨⟨2024, 1, 2⟩, [("usd", -(3 / 2 : Rat))]⟩]
      (by with_unfolding_all decide) ⟨⟨2024, 1, 2⟩, [("usd", -(3 / 2 : Rat))]⟩
      (by with_unfolding_all decide) "usd" (-(3 / 2))
      (by with_unfolding_all decide)⟩

/-! ## C9: empty Date cell behaves like a missing Date column -/

/-- C9: when the first data row's "Date" cell is the empty string and there
is no non-empty "DATE" cell, the single-row tabular parser fails with the
same missing-'Date'-column error as if the column were absent. -/
theorem claim_C9_empty_date_cell (header r : List String)
    (rest : List (List String)) (hr : r ≠ [])
    (hdate : pyGet (mkRow header r) "Date" = some "")
    (hDATE : pyTruthyStr (pyGet (mkRow header r) "DATE") = false) :
    parse_ecb_daily_csv (header :: r :: rest) = .error .missingDateColumn := by
  have hre : r.isEmpty = false := by
    cases r
    · exact absurd rfl hr
    · rfl
  have hfilter : ((r :: rest).filter (fun x => !x.isEmpty)).map (mkRow header) =
      mkRow header r :: ((rest.filter (fun x => !x.isEmpty)).map (mkRow header)) := by
    rw [List.filter_cons, hre]
    rfl
  have hrds : rowDateStr (mkRow header r) = pyGet (mkRow header r) "DATE" := by
    unfold rowDateStr
    rw [hdate]
    rfl
  unfold parse_ecb_daily_csv
  dsimp only
  rw [hfilter]
  dsimp only
  cases hD : pyGet (mkRow header r) "DATE" with
  | none =>
    rw [hrds, hD]
  | some s =>
    have hs : s = "" := by
      rw [hD] at hDATE
      unfold pyTruthyStr at hDATE
      simpa using hDATE
    rw [hrds, hD, hs]
    rfl

/-- Closed instance of C9: the header has a "Date" column, the row has an
empty cell under it, and the parser reports the missing-column error. -/
theorem claim_C9_witness :
    parse_ecb_daily_csv [["Date", "USD"], ["", "1.0"]] =
      .error .missingDateColumn :=
  claim_C9_empty_date_cell ["Date", "USD"] ["", "1.0"] []
    (by with_unfolding_all decide) (by with_unfolding_all decide)
    (by with_unfolding_all decide)

/-! ## C10: the date column never appears among the rates -/

/-- C10: every tabular-parser snapshot's rates dictionary has no "DATE" key:
any column whose stripped upper-cased name is "DATE" is excluded by both the
single-row and the multi-row parser. -/
theorem claim_C10_date_key_excluded :
    (∀ records snap, parse_ecb_daily_csv records = .ok snap →
        alookup "DATE" snap.rates = none) ∧
    (∀ records out, parse_ecb_hist_csv records = .ok out →
        ∀ s ∈ out, alookup "DATE" s.rates = none) := by
  constructor
  · intro records snap h
    obtain ⟨row, hr⟩ := parse_daily_ok_rates records snap h
    rw [hr]
    exact alookup_eq_none _ _ fun k v hm => (ratesFromRow_mem row k v hm).1
  · intro records out h s hs
    obtain ⟨row, hr⟩ := parse_hist_ok_rates records out h s hs
    rw [hr]
    exact alookup_eq_none _ _ fun k v hm => (ratesFromRow_mem row k v hm).1

/-- Closed instances of both parts of C10, on inputs whose headers carry
date-like columns (`"Date"`, `" date "`) beyond the first. -/
theorem claim_C10_witness :
    alookup "DATE" (⟨⟨2024, 1, 2⟩, [("USD", 3)]⟩ : RatesSnapshot).rates = none ∧
    alookup "DATE" (⟨⟨2024, 1, 2⟩, [("USD", 3)]⟩ : RatesSnapshot).rates = none :=
  ⟨claim_C10_date_key_excluded.1 [["Date", "USD", " date "], ["2024-01-02", "3.0", "9"]]
      ⟨⟨2024, 1, 2⟩, [("USD", 3)]⟩ (by with_unfolding_all decide),
   claim_C10_date_key_excluded.2 [["Date", "USD", " date "], ["2024-01-02", "3.0", "9"]]
      [⟨⟨2024, 1, 2⟩, [("USD", 3)]⟩] (by with_unfolding_all decide)
      ⟨⟨2024, 1, 2⟩, [("USD", 3)]⟩ (by with_unfolding_all decide)⟩

/-! ## C6: historical means -/

theorem mem_dedupFirstAux (l : List String) :
    ∀ (seen : List String) (c : String),
      c ∈ dedupFirstAux l seen ↔ (c ∈ l ∧ c ∉ seen) := by
  induction l with
  | nil =>
    intro seen c
    simp [dedupFirstAux]
  | cons a rest ih =>
    intro seen c
    unfold dedupFirstAux
    by_cases hs : seen.contains a = true
    · have hmem : a ∈ seen := by simpa using hs
      rw [if_pos hs, ih]
      constructor
      · rintro ⟨h1, h2⟩
        exact ⟨List.mem_cons_of_mem _ h1, h2⟩
      · rintro ⟨h1, h2⟩
        rcases List.mem_cons.mp h1 with rfl | h1'
        · exact absurd hmem h2
        · exact ⟨h1', h2⟩
    · have hmem : a ∉ seen := by simpa using hs
      rw [if_neg hs]
      constructor
      · intro h
        rcases List.mem_cons.mp h with rfl | h'
        · exact ⟨List.mem_cons_self _ _, hmem⟩
        · obtain ⟨h1, h2⟩ := (ih _ _).mp h'
          refine ⟨List.mem_cons_of_mem _ h1, fun hc => h2 ?_⟩
          exact List.mem_append.mpr (.inl hc)
      · rintro ⟨h1, h2⟩
        rcases List.mem_cons.mp h1 with rfl | h1'
        · exact List.mem_cons_self _ _
        · by_cases hca : c = a
          · subst hca
            exact List.mem_cons_self _ _
          · refine List.mem_cons_of_mem _ ((ih _ _).mpr ⟨h1', fun hc => ?_⟩)
            rcases List.mem_append.mp hc with hc1 | hc2
            · exact h2 hc1
            · exact hca (List.mem_singleton.mp hc2)

theorem mem_dedupFirst (l : List String) (c : String) :
    c ∈ dedupFirst l ↔ c ∈ l := by
  unfold dedupFirst
  rw [mem_dedupFirstAux]
  simp

theorem foldl_updateBuckets (hist : List RatesSnapshot) :
    ∀ (l : List String) (f : String → List Rat),
      hist.foldl (fun b snap => updateBuckets snap b) (l.map fun c => (c, f c)) =
        l.map fun c => (c, f c ++ hist.filterMap fun s => alookup c s.rates) := by
  induction hist with
  | nil =>
    intro l f
    simp
  | cons s hist ih =>
    intro l f
    rw [List.foldl_cons]
    have hstep : updateBuckets s (l.map fun c => (c, f c)) =
        l.map fun c => (c, f c ++ (alookup c s.rates).toList) := by
      unfold updateBuckets
      rw [List.map_map]
      apply List.map_congr_left
      intro c _
      cases halk : alookup c s.rates with
      | none => simp [Function.comp, halk]
      | some v => simp [Function.comp, halk]
    rw [hstep, ih l fun c => f c ++ (alookup c s.rates).toList]
    apply List.map_congr_left
    intro c _
    rw [List.filterMap_cons, List.append_assoc]
    cases halk : alookup c s.rates with
    | none => simp
    | some v => simp

theorem compute_means_eq (hist : List RatesSnapshot) (cur : List String) :
    compute_historical_means hist cur =
      (dedupFirst cur).filterMap fun c =>
        if (hist.filterMap fun s => alookup c s.rates) = [] then none
        else some (c, ratMean (hist.filterMap fun s => alookup c s.rates)) := by
  unfold compute_historical_means
  rw [foldl_updateBuckets hist (dedupFirst cur) fun _ => [], List.filterMap_map]
  apply List.filterMap_congr
  intro c _
  simp [Function.comp]

theorem alookup_filterMap_guard (key : String) (l : List String)
    (F : String → List Rat) (g : String → Rat) :
    alookup key (l.filterMap fun c => if F c = [] then none else some (c, g c)) =
      (if key ∈ l ∧ ¬F key = [] then some (g key) else none) := by
  induction l with
  | nil =>
    simp
    rfl
  | cons a rest ih =>
    rw [List.filterMap_cons]
    by_cases hc : F a = []
    · rw [if_pos hc]
      dsimp only
      rw [ih]
      by_cases hk : key = a
      · subst hk
        rw [if_neg fun h => h.2 hc, if_neg fun h => h.2 hc]
      · have hiff : (key ∈ a :: rest ∧ ¬F key = []) ↔ (key ∈ rest ∧ ¬F key = []) := by
          simp [List.mem_cons, hk]
        rw [if_congr hiff rfl rfl]
    · rw [if_neg hc]
      dsimp only
      rw [alookup_cons]
      by_cases hk : a = key
      · subst hk
        rw [if_pos rfl, if_pos ⟨List.mem_cons_self _ _, hc⟩]
      · rw [if_neg hk, ih]
        have hiff : (key ∈ rest ∧ ¬F key = []) ↔ (key ∈ a :: rest ∧ ¬F key = []) := by
          constructor
          · rintro ⟨hr, hF⟩
            exact ⟨List.mem_cons_of_mem _ hr, hF⟩
          · rintro ⟨h1, hF⟩
            rcases List.mem_cons.mp h1 with rfl | hr
            · exact absurd rfl hk
            · exact ⟨hr, hF⟩
        rw [if_congr hiff rfl rfl]

/-- C6: `compute_historical_means` maps a requested code to the arithmetic
mean of exactly the values present for it across the series, omits codes
with zero collected values entirely, and yields `{USD: 2.0, JPY: 5.0}` on
the claim's concrete three-snapshot series. -/
theorem claim_C6_compute_means :
    (∀ (hist : List RatesSnapshot) (cur : List String) (c : String),
      alookup c (compute_historical_means hist cur) =
        if c ∈ cur ∧ ¬(hist.filterMap fun s => alookup c s.rates) = [] then
          some (ratMean (hist.filterMap fun s => alookup c s.rates))
        else none) ∧
    compute_historical_means exampleHist ["USD", "JPY"] = [("USD", 2), ("JPY", 5)] := by
  constructor
  · intro hist cur c
    rw [compute_means_eq, alookup_filterMap_guard c (dedupFirst cur)
      (fun c => hist.filterMap fun s => alookup c s.rates)
      (fun c => ratMean (hist.filterMap fun s => alookup c s.rates))]
    have hiff : (c ∈ dedupFirst cur ∧ ¬(hist.filterMap fun s => alookup c s.rates) = []) ↔
        (c ∈ cur ∧ ¬(hist.filterMap fun s => alookup c s.rates) = []) := by
      rw [mem_dedupFirst]
    rw [if_congr hiff rfl rfl]
  · with_unfolding_all decide

/-! ## C7: daily-feed dispatch and the latest snapshot -/

theorem snapLe_refl (s : RatesSnapshot) : snapLe s s := by
  unfold snapLe Date.le
  omega

theorem parse_xml_sorted (root : XmlElem) (ss : List RatesSnapshot)
    (h : parse_ecb_xml root = .ok ss) : ss.Sorted snapLe := by
  unfold parse_ecb_xml at h
  cases hx : xmlGo (timeNodes root) with
  | error e =>
    rw [hx] at h
    cases h
  | ok ss' =>
    rw [hx] at h
    cases h
    exact List.sorted_insertionSort snapLe ss'

theorem sorted_getLast?_max (l : List RatesSnapshot) :
    ∀ (s g : RatesSnapshot), l.Sorted snapLe → l.getLast? = some g → s ∈ l →
      snapLe s g := by
  induction l with
  | nil =>
    intro s g _ hg _
    cases hg
  | cons a rest ih =>
    intro s g hsort hg hs
    cases rest with
    | nil =>
      cases hg
      rcases List.mem_singleton.mp hs with rfl
      exact snapLe_refl _
    | cons b rest' =>
      rw [List.getLast?_cons_cons] at hg
      have hsort' := (List.sorted_cons.mp hsort).2
      have hrel := (List.sorted_cons.mp hsort).1
      rcases List.mem_cons.mp hs with rfl | hs'
      · exact hrel g (List.mem_of_mem_getLast? hg)
      · exact ih s g hsort' hg hs'

/-- C7: `load_daily_snapshot` dispatches on the chosen entry name: an XML
name is parsed with the XML dialect parser and the chronologically latest
snapshot (greatest `as_of`) is returned, `NoDataError` when zero snapshots
resulted (and a date `FormatError` of the parse propagates); a CSV name
returns the single-row tabular parser's result; any other extension fails
with the unsupported-format error naming the file. -/
theorem claim_C7_load_daily :
    (∀ fn xml records, strEndsWith (pyLower fn) ".xml" = true →
        parse_ecb_xml xml = .ok [] →
        load_daily_snapshot fn xml records = .error .noDailyData) ∧
    (∀ fn xml records ss s, strEndsWith (pyLower fn) ".xml" = true →
        parse_ecb_xml xml = .ok ss →
        load_daily_snapshot fn xml records = .ok s →
        s ∈ ss ∧ ∀ t ∈ ss, Date.le t.as_of s.as_of) ∧
    (∀ fn xml records e, strEndsWith (pyLower fn) ".xml" = true →
        parse_ecb_xml xml = .error e →
        load_daily_snapshot fn xml records = .error e) ∧
    (∀ fn xml records, strEndsWith (pyLower fn) ".xml" = false →
        strEndsWith (pyLower fn) ".csv" = true →
        load_daily_snapshot fn xml records = parse_ecb_daily_csv records) ∧
    (∀ fn xml records, strEndsWith (pyLower fn) ".xml" = false →
        strEndsWith (pyLower fn) ".csv" = false →
        load_daily_snapshot fn xml records = .error (.unsupportedDailyFormat fn)) := by
  refine ⟨?_, ?_, ?_, ?_, ?_⟩
  · intro fn xml records hname hok
    unfold load_daily_snapshot
    rw [if_pos hname, hok]
    rfl
  · intro fn xml records ss s hname hok hload
    unfold load_daily_snapshot at hload
    rw [if_pos hname, hok] at hload
    dsimp only at hload
    cases hl : ss.getLast? with
    | none =>
      rw [hl] at hload
      cases hload
    | some g =>
      rw [hl] at hload
      cases hload
      refine ⟨List.mem_of_mem_getLast? hl, fun t ht => ?_⟩
      exact sorted_getLast?_max ss t s (parse_xml_sorted xml ss hok) hl ht
  · intro fn xml records e hname herr
    unfold load_daily_snapshot
    rw [if_pos hname, herr]
  · intro fn xml records hxml hcsv
    unfold load_daily_snapshot
    rw [if_neg (bool_ne_true hxml), if_pos hcsv]
  · intro fn xml records hxml hcsv
    unfold load_daily_snapshot
    rw [if_neg (bool_ne_true hxml), if_neg (bool_ne_true hcsv)]

/-- Closed instances of all five parts of C7, with the latest-snapshot part
exercised on a tree whose later date is listed first. -/
theorem claim_C7_witness :
    load_daily_snapshot "eurofxref-daily.xml" (.mk [] .nil) [] =
      .error .noDailyData ∧
    (⟨⟨2024, 1, 2⟩, [("usd", -(3 / 2 : Rat))]⟩ ∈
        ([⟨⟨2024, 1, 1⟩, []⟩, ⟨⟨2024, 1, 2⟩, [("usd", -(3 / 2 : Rat))]⟩] :
          List RatesSnapshot) ∧
      ∀ t ∈ ([⟨⟨2024, 1, 1⟩, []⟩, ⟨⟨2024, 1, 2⟩, [("usd", -(3 / 2 : Rat))]⟩] :
          List RatesSnapshot),
        Date.le t.as_of (⟨2024, 1, 2⟩ : Date)) ∧
    load_daily_snapshot "eurofxref-daily.xml" badTimeXml [] =
      .error .dateFormat ∧
    load_daily_snapshot "eurofxref.csv" (.mk [] .nil)
        [["Date", "USD"], ["2024-01-02", "3.0"]] =
      parse_ecb_daily_csv [["Date", "USD"], ["2024-01-02", "3.0"]] ∧
    load_daily_snapshot "payload.bin" (.mk [] .nil) [] =
      .error (.unsupportedDailyFormat "payload.bin") :=
  ⟨claim_C7_load_daily.1 "eurofxref-daily.xml" (.mk [] .nil) []
      (by with_unfolding_all decide) (by with_unfolding_all decide),
   claim_C7_load_daily.2.1 "eurofxref-daily.xml" mixedXml []
      [⟨⟨2024, 1, 1⟩, []⟩, ⟨⟨2024, 1, 2⟩, [("usd", -(3 / 2 : Rat))]⟩]
      ⟨⟨2024, 1, 2⟩, [("usd", -(3 / 2 : Rat))]⟩
      (by with_unfolding_all decide) (by with_unfolding_all decide)
      (by with_unfolding_all decide),
   claim_C7_load_daily.2.2.1 "eurofxref-daily.xml" badTimeXml [] .dateFormat
      (by with_unfolding_all decide) (by with_unfolding_all decide),
   claim_C7_load_daily.2.2.2.1 "eurofxref.csv" (.mk [] .nil)
      [["Date", "USD"], ["2024-01-02", "3.0"]]
      (by with_unfolding_all decide) (by with_unfolding_all decide),
   claim_C7_load_daily.2.2.2.2 "payload.bin" (.mk [] .nil) []
      (by with_unfolding_all decide) (by with_unfolding_all decide)⟩

/-! ## C8: report rendering -/

theorem digitChar_isDigit (k : Nat) (h : k < 10) : (digitChar k).isDigit = true := by
  interval_cases k <;> decide

theorem natCharsCore_digits (fuel : Nat) :
    ∀ (n : Nat) (acc : List Char), (∀ c ∈ acc, c.isDigit = true) →
      ∀ c ∈ natCharsCore fuel n acc, c.isDigit = true := by
  induction fuel with
  | zero =>
    intro n acc hacc c hc
    exact hacc c hc
  | succ fuel ih =>
    intro n acc hacc c hc
    unfold natCharsCore at hc
    have hacc' : ∀ c ∈ digitChar (n % 10) :: acc, c.isDigit = true := by
      intro c hc'
      rcases List.mem_cons.mp hc' with rfl | hmem
      · exact digitChar_isDigit _ (Nat.mod_lt _ (by norm_num))
      · exact hacc c hmem
    split at hc
    · exact hacc' c hc
    · exact ih _ _ hacc' c hc

theorem natChars_digits (n : Nat) : ∀ c ∈ natChars n, c.isDigit = true :=
  natCharsCore_digits (n + 1) n [] fun _ hc => absurd hc (List.not_mem_nil _)

theorem isDigit_ne_dot {c : Char} (h : c.isDigit = true) : c ≠ '.' := by
  intro hc
  subst hc
  exact absurd h (by decide)

theorem formatSix_decomp (q : Rat) :
    ∃ pre post, formatSix q = pre ++ "." ++ post ∧ post.length = 6 ∧
      (∀ c ∈ post.data, c.isDigit = true) ∧ (∀ c ∈ pre.data, c ≠ '.') := by
  refine ⟨(if q < 0 then "-" else "") ++
      natStr ((roundHalfEven (|q| * 1000000)).toNat / 1000000),
    sixDigits ((roundHalfEven (|q| * 1000000)).toNat % 1000000),
    ?_, rfl, ?_, ?_⟩
  · rfl
  · intro c hc
    obtain ⟨i, _, rfl⟩ := List.mem_map.mp hc
    exact digitChar_isDigit _ (Nat.mod_lt _ (by norm_num))
  · intro c hc
    rw [String.data_append] at hc
    rcases List.mem_append.mp hc with h1 | h2
    · by_cases hq : q < 0
      · rw [if_pos hq] at h1
        rcases List.mem_singleton.mp h1 with rfl
        decide
      · rw [if_neg hq] at h1
        exact absurd h1 (List.not_mem_nil _)
    · exact isDigit_ne_dot (natChars_digits _ c h2)

/-- C8: the renderer is a pure function of its inputs producing the fixed
title, the daily date line in ISO form and one table row per requested code
in the caller-supplied order (shown on a concrete document whose codes are
deliberately not alphabetically sorted); a code missing from the daily rates
renders "N/A" in the Rate column, one missing from the means renders "N/A"
in the Mean column, and every formatted value carries exactly six digits
after the (unique) decimal point. -/
theorem claim_C8_render :
    (render_markdown_table ⟨⟨2024, 1, 1⟩, [("USD", 1086543 / 1000000)]⟩
        [("AAA", 5 / 2)] ["USD", "AAA"] =
      "# ECB Exchange Rates (EUR base)\n\n**Daily rates date:** 2024-01-01\n\n| Currency Code | Rate | Mean Historical Rate |\n|---|---:|---:|\n| USD | 1.086543 | N/A |\n| AAA | N/A | 2.500000 |\n") ∧
    (∀ daily means ccy, alookup ccy daily.rates = none →
        renderRow daily means ccy =
          "| " ++ ccy ++ " | " ++ "N/A" ++ " | " ++ cellStr (alookup ccy means) ++ " |") ∧
    (∀ daily means ccy, alookup ccy means = none →
        renderRow daily means ccy =
          "| " ++ ccy ++ " | " ++ cellStr (alookup ccy daily.rates) ++ " | " ++
            "N/A" ++ " |") ∧
    (∀ q : Rat, ∃ pre post, formatSix q = pre ++ "." ++ post ∧ post.length = 6 ∧
        (∀ c ∈ post.data, c.isDigit = true) ∧ (∀ c ∈ pre.data, c ≠ '.')) := by
  refine ⟨by with_unfolding_all decide, ?_, ?_, formatSix_decomp⟩
  · intro daily means ccy h
    unfold renderRow
    rw [h]
    rfl
  · intro daily means ccy h
    unfold renderRow
    rw [h]
    rfl

/-- Closed instances of the conditional parts of C8: a code absent from the
daily rates and from the means renders "N/A" in the matching column. -/
theorem claim_C8_witness :
    renderRow ⟨⟨2024, 1, 1⟩, []⟩ [("GBP", 5 / 2)] "GBP" =
      "| " ++ "GBP" ++ " | " ++ "N/A" ++ " | " ++
        cellStr (alookup "GBP" [("GBP", (5 / 2 : Rat))]) ++ " |" ∧
    renderRow ⟨⟨2024, 1, 1⟩, [("GBP", 5 / 2)]⟩ [] "GBP" =
      "| " ++ "GBP" ++ " | " ++
        cellStr (alookup "GBP" (⟨⟨2024, 1, 1⟩, [("GBP", (5 / 2 : Rat))]⟩ :
          RatesSnapshot).rates) ++ " | " ++ "N/A" ++ " |" :=
  ⟨claim_C8_render.2.1 ⟨⟨2024, 1, 1⟩, []⟩ [("GBP", 5 / 2)] "GBP"
      (by with_unfolding_all decide),
   claim_C8_render.2.2.1 ⟨⟨2024, 1, 1⟩, [("GBP", 5 / 2)]⟩ [] "GBP"
      (by with_unfolding_all decide)⟩

end EcbEtl
